import Mathlib

/-!
Verification of the real-time message synchronization core of the
`codeweaver` repository, as implemented in

  * `packages/api/src/routers/chat.ts` — the tRPC `chatRouter` with the
    `sendMessage` mutation, the module-level `EventEmitter` bus `ee`, and the
    `onMessage` subscription;
  * the client `Chat` component — the `onMessage.useSubscription` `onData`
    handler (the client reconciler upsert) and the `handleSubmit` form handler.

The embedding below translates these functions directly; the theorems about
them follow after all the definitions.
-/

namespace CodeWeaver

/-- The `role` field of the zod `messageSchema`: `z.enum(['user', 'assistant'])`. -/
inductive Role where
  | user
  | assistant
deriving DecidableEq, Repr

/-- The message record from `chat.ts` (`messageSchema` is
`{ id: z.string(), content: z.string(), role: z.enum(['user','assistant']) }`)
and the client `Message` interface
(`{ id: string; content: string; role: 'user' | 'assistant' }`).
These are exactly the fields a message carries; in particular the schema has
no `conversationId` field and no `state` field. -/
structure Message where
  id : String
  content : String
  role : Role
deriving DecidableEq, Repr

/-! ## Client Reconciler (`Chat` component, `onData` handler)

```ts
setMessages(prevMessages => {
  const existingMessageIndex = prevMessages.findIndex(m => m.id === data.id);
  if (existingMessageIndex !== -1) {
    const newMessages = [...prevMessages];
    newMessages[existingMessageIndex] = data;
    return newMessages;
  } else {
    return [...prevMessages, data];
  }
});
```
-/

/-- The reconciler upsert: find the index of the first entry whose `id` equals
the incoming snapshot's `id`; if found, overwrite the entry at that index;
otherwise append the snapshot at the end. -/
def upsert (prevMessages : List Message) (data : Message) : List Message :=
  match prevMessages.findIdx? (fun m => m.id == data.id) with
  | some i => prevMessages.set i data
  | none => prevMessages ++ [data]

/-- Applying a sequence of incoming snapshots one by one through `upsert`,
as the subscription delivers them to `onData`. -/
def applyAll (prevMessages : List Message) (snaps : List Message) : List Message :=
  snaps.foldl upsert prevMessages

/-- Structural-recursion form of `upsert`; proved equal to it in
`upsert_eq_upsertRec` and used in inductive proofs. -/
def upsertRec : List Message → Message → List Message
  | [], data => [data]
  | m :: rest, data =>
      if m.id = data.id then data :: rest else m :: upsertRec rest data

/-- The list of ids of a message list, in order. -/
def ids (l : List Message) : List String :=
  l.map Message.id

/-- Specification-side notion: the distinct elements of a sequence in order of
first appearance, skipping those already in `seen`.  The reconciled list's ids
are compared against `firstSeen [] inputIds`. -/
def firstSeen (seen : List String) : List String → List String
  | [] => []
  | i :: rest =>
      if i ∈ seen then firstSeen seen rest else i :: firstSeen (i :: seen) rest

/-! ## Client form handler (`Chat` component, `handleSubmit`)

```ts
if (!input) return;
const newUserMessage: Message = { id: uuidv4(), role: 'user', content: input };
const newMessages = [...messages, newUserMessage];
setMessages(newMessages);
sendMessageMutation.mutate({ messages: newMessages });
setInput('');
```
-/

/-- The client submit handler: on empty input (`!input` is true for the empty
string) it returns without updating state or calling the mutation; otherwise
it appends the new user message (with a fresh uuid) and sends the whole
history to `sendMessage`.  Result: the new local message list, and the
mutation payload if one was sent. -/
def handleSubmit (input : String) (messages : List Message) (freshId : String) :
    List Message × Option (List Message) :=
  if input = "" then (messages, none)
  else
    let newUserMessage : Message := { id := freshId, content := input, role := Role.user }
    let newMessages := messages ++ [newUserMessage]
    (newMessages, some newMessages)

/-! ## Server (`chat.ts`, `sendMessage` mutation and the `ee` bus)

```ts
const lastMessage = input.messages[input.messages.length - 1];
if (lastMessage && lastMessage.role === 'user') {
  ee.emit('newMessage', lastMessage);
}
const assistantMessage: Message = { id: crypto.randomUUID(), role: 'assistant', content: '' };
ee.emit('newMessage', assistantMessage);
const result = await streamText({ ... });
for await (const delta of result.textStream) {
  assistantMessage.content += delta;
  ee.emit('updateMessage', { ...assistantMessage });
}
return assistantMessage;
```
-/

/-- An event published on the `ee` bus: either `'newMessage'` or
`'updateMessage'`, each carrying a full message snapshot. -/
inductive Event where
  | newMessage (m : Message)
  | updateMessage (m : Message)
deriving DecidableEq, Repr

/-- The message snapshot carried by an event. -/
def Event.message : Event → Message
  | .newMessage m => m
  | .updateMessage m => m

/-- Whether an event is an `'updateMessage'` emission. -/
def Event.isUpdate : Event → Bool
  | .newMessage _ => false
  | .updateMessage _ => true

/-- The behaviour of the external generation source (`result.textStream`): the
fragments it yields, in order, and whether it surfaces an error after the last
yielded fragment instead of terminating normally. -/
structure GenResult where
  fragments : List String
  errorsAfter : Bool
deriving DecidableEq, Repr

/-- The `for await (const delta of result.textStream)` loop: each fragment is
appended to the assistant message's `content` and a copy of the current
message (`{ ...assistantMessage }`) is emitted as an `'updateMessage'` event.
Returns the emitted events and the final assistant message. -/
def streamLoop (assistantMessage : Message) : List String → List Event × Message
  | [] => ([], assistantMessage)
  | delta :: rest =>
      let updated := { assistantMessage with content := assistantMessage.content ++ delta }
      (Event.updateMessage updated :: (streamLoop updated rest).1, (streamLoop updated rest).2)

/-- The `sendMessage` mutation.  `msgs` is `input.messages` (already validated
against the zod schema, which constrains only the shape of each message, not
content emptiness); `assistantId` stands for the `crypto.randomUUID()` value;
`gen` is the behaviour of the generation source.  It emits the last input
message as a `'newMessage'` event when its role is `user`, emits the empty
assistant message, then runs the delta loop.  If the generation source errors,
the error propagates out of the mutation (modelled as `Except.error ()`) with
no further emission; otherwise the final assistant message is returned.
The result is the ordered list of events emitted on the bus, paired with the
mutation's outcome. -/
def sendMessage (msgs : List Message) (assistantId : String) (gen : GenResult) :
    List Event × Except Unit Message :=
  let lastMessage := msgs.getLast?
  let userEvents : List Event :=
    match lastMessage with
    | some m => if m.role = Role.user then [Event.newMessage m] else []
    | none => []
  let assistantMessage : Message := { id := assistantId, content := "", role := Role.assistant }
  let updateEvents := (streamLoop assistantMessage gen.fragments).1
  let finalMessage := (streamLoop assistantMessage gen.fragments).2
  let events := userEvents ++ [Event.newMessage assistantMessage] ++ updateEvents
  if gen.errorsAfter then (events, Except.error ()) else (events, Except.ok finalMessage)

/-- The concatenation of all fragments in arrival order, as accumulated by the
delta loop starting from the empty string. -/
def concatFrags (fs : List String) : String :=
  fs.foldl (fun a b => a ++ b) ""

/-- The snapshots carried by the events of a trace that concern the message
with id `aid`, in emission order. -/
def snapshotsFor (aid : String) (events : List Event) : List Message :=
  events.filterMap (fun e => if (Event.message e).id = aid then some (Event.message e) else none)

/-- `StrPrefix s t` means `t` extends `s`: the claim-side notion of
"prefix-extension" of streamed content. -/
def StrPrefix (s t : String) : Prop :=
  ∃ u, s ++ u = t

/-- Proof-side characterization of the delta loop's emitted snapshots: the
successive partial messages, each extending the previous content by one
fragment. -/
def partials (assistantMessage : Message) : List String → List Message
  | [] => []
  | delta :: rest =>
      let updated := { assistantMessage with content := assistantMessage.content ++ delta }
      updated :: partials updated rest

/-! ## Broadcast hub (`ee = new EventEmitter()` and the `onMessage` subscription)

```ts
onMessage: publicProcedure.subscription(() => {
  return observable<Message>(emit => {
    const onNewMessage = (data: Message) => emit.next(data);
    const onUpdateMessage = (data: Message) => emit.next(data);
    ee.on('newMessage', onNewMessage);
    ee.on('updateMessage', onUpdateMessage);
    return () => {
      ee.off('newMessage', onNewMessage);
      ee.off('updateMessage', onUpdateMessage);
    };
  });
}),
```

The subscription procedure takes no input (there is no conversation
parameter), registers its handlers unconditionally for both event names, and
its teardown removes them with `EventEmitter.off`, which deletes the first
occurrence of the given handler from the listener array.  Each subscription's
handler closures are fresh objects, so listeners are identified below by the
fresh number handed out at subscription time. -/

/-- The hub: the ordered list of currently registered listeners (one entry per
live `onMessage` subscription) and the next fresh listener identity. -/
structure Hub where
  listeners : List Nat
  nextId : Nat
deriving DecidableEq, Repr

/-- The hub with no subscribers. -/
def Hub.empty : Hub :=
  { listeners := [], nextId := 0 }

/-- Registering a new `onMessage` subscription: `ee.on` appends the handler to
the listener array.  Returns the new hub and the fresh listener identity. -/
def Hub.subscribe (h : Hub) : Hub × Nat :=
  ({ listeners := h.listeners ++ [h.nextId], nextId := h.nextId + 1 }, h.nextId)

/-- `EventEmitter.off`: remove the first occurrence of the given listener from
the array (a no-op when the listener is absent). -/
def removeFirst (x : Nat) : List Nat → List Nat
  | [] => []
  | y :: ys => if y = x then ys else y :: removeFirst x ys

/-- The subscription teardown: deregister the listener via `ee.off`. -/
def Hub.unsubscribe (h : Hub) (l : Nat) : Hub :=
  { h with listeners := removeFirst l h.listeners }

/-- `ee.emit` hands the event to every currently registered listener, in
registration order; no field of the event is consulted when choosing
recipients. -/
def Hub.recipients (h : Hub) (_e : Event) : List Nat :=
  h.listeners

/-- The events a listener receives when the events `events` are published on
the hub while the listener set is `h.listeners`: every registered listener is
handed every event, an unregistered listener none. -/
def Hub.received (h : Hub) (events : List Event) (l : Nat) : List Event :=
  if l ∈ h.listeners then events else []

/-- Hub states reachable by `subscribe`/`unsubscribe` from `Hub.empty`:
listener identities are distinct and below the fresh counter. -/
def Hub.WF (h : Hub) : Prop :=
  h.listeners.Nodup ∧ ∀ l ∈ h.listeners, l < h.nextId

/-! ## Interleaving of two concurrent `sendMessage` executions

Each loop iteration of `sendMessage` suspends awaiting the next fragment, so
two in-flight mutations interleave their emissions on the shared bus at those
suspension points in an arbitrary schedule.  A schedule is a list of Booleans:
`true` takes the next event of the first trace, `false` of the second. -/

/-- Merge two traces under a schedule; when the scheduled trace is exhausted
the other proceeds.  Every result is an interleaving: it preserves the
relative order of each trace. -/
def mergeSched : List Bool → List Event → List Event → List Event
  | [], xs, ys => xs ++ ys
  | true :: s, [], ys => mergeSched s [] ys
  | true :: s, x :: xs, ys => x :: mergeSched s xs ys
  | false :: s, xs, [] => mergeSched s xs []
  | false :: s, xs, y :: ys => y :: mergeSched s xs ys

/-- External attribution of a conversation to each subscriber, used to state
claims about conversation scoping.  The code itself records no such
attribution: `onMessage` takes no conversation parameter, so which
conversation a subscriber is interested in exists only in the client's
intent.  Subscriber `0` watches conversation `"c1"`, subscriber `1` watches
`"c2"`. -/
def intendedConversation (l : Nat) : String :=
  if l = 0 then "c1" else "c2"

/-! ## Theorems: the Client Reconciler -/

theorem upsert_eq_upsertRec (l : List Message) (data : Message) :
    upsert l data = upsertRec l data := by
  induction l with
  | nil => rfl
  | cons m rest ih =>
      simp only [upsert, upsertRec, List.findIdx?_cons, Nat.zero_add, List.findIdx?_succ]
      by_cases h : m.id = data.id
      · simp [h]
      · simp only [h, beq_iff_eq, if_false]
        simp only [upsert] at ih
        cases hfind : rest.findIdx? (fun m => m.id == data.id) with
        | none =>
            simp only [hfind] at ih
            simp [hfind, ih, h]
        | some i =>
            simp only [hfind] at ih
            simp [hfind, ih, h]

theorem applyAll_eq_foldl_upsertRec : ∀ (snaps : List Message) (l : List Message),
    applyAll l snaps = snaps.foldl upsertRec l
  | [], _ => rfl
  | s :: rest, l => by
      show applyAll (upsert l s) rest = _
      rw [applyAll_eq_foldl_upsertRec rest (upsert l s), upsert_eq_upsertRec, List.foldl_cons]

theorem ids_upsertRec_of_mem : ∀ {l : List Message} {data : Message},
    data.id ∈ ids l → ids (upsertRec l data) = ids l := by
  intro l
  induction l with
  | nil => intro data h; simp [ids] at h
  | cons m rest ih =>
      intro data h
      by_cases hm : m.id = data.id
      · simp [upsertRec, hm, ids]
      · have hr : data.id ∈ ids rest := by
          rcases List.mem_cons.1 h with h1 | h1
          · exact absurd h1.symm hm
          · exact h1
        have h2 := ih hr
        simp only [ids] at h2
        simp only [upsertRec, hm, if_false, ids, List.map_cons, h2]

theorem upsertRec_of_not_mem : ∀ {l : List Message} {data : Message},
    data.id ∉ ids l → upsertRec l data = l ++ [data] := by
  intro l
  induction l with
  | nil => intro data _; rfl
  | cons m rest ih =>
      intro data h
      have hm : ¬ m.id = data.id := fun he => h (by simp [ids, he])
      have hr : data.id ∉ ids rest := fun hmem => h (by simp [ids] at hmem ⊢; tauto)
      simp [upsertRec, hm, ih hr]

theorem upsertRec_idempotent : ∀ (l : List Message) (m : Message),
    upsertRec (upsertRec l m) m = upsertRec l m
  | [], m => by simp [upsertRec]
  | x :: rest, m => by
      by_cases hx : x.id = m.id
      · rw [upsertRec, if_pos hx, upsertRec, if_pos rfl]
      · rw [upsertRec, if_neg hx, upsertRec, if_neg hx, upsertRec_idempotent rest m]

theorem mem_firstSeen {x : String} (xs : List String) : ∀ seen,
    x ∈ firstSeen seen xs ↔ x ∈ xs ∧ x ∉ seen := by
  induction xs with
  | nil => intro seen; simp [firstSeen]
  | cons i rest ih =>
      intro seen
      by_cases hi : i ∈ seen
      · rw [firstSeen, if_pos hi, ih seen]
        constructor
        · exact fun ⟨h1, h2⟩ => ⟨List.mem_cons_of_mem _ h1, h2⟩
        · rintro ⟨h1, h2⟩
          rcases List.mem_cons.1 h1 with rfl | h1
          · exact absurd hi h2
          · exact ⟨h1, h2⟩
      · rw [firstSeen, if_neg hi]
        constructor
        · intro hx
          rcases List.mem_cons.1 hx with rfl | hx
          · exact ⟨List.mem_cons_self _ _, hi⟩
          · have h1 := (ih (i :: seen)).1 hx
            exact ⟨List.mem_cons_of_mem _ h1.1, fun hs => h1.2 (List.mem_cons_of_mem _ hs)⟩
        · rintro ⟨h1, h2⟩
          by_cases hxi : x = i
          · subst hxi; exact List.mem_cons_self _ _
          · rcases List.mem_cons.1 h1 with rfl | h1
            · exact absurd rfl hxi
            · refine List.mem_cons_of_mem _ ((ih (i :: seen)).2 ⟨h1, ?_⟩)
              intro hmem
              rcases List.mem_cons.1 hmem with h3 | h3
              · exact hxi h3
              · exact h2 h3

theorem firstSeen_nodup (xs : List String) : ∀ seen, (firstSeen seen xs).Nodup := by
  induction xs with
  | nil => intro seen; simp [firstSeen]
  | cons i rest ih =>
      intro seen
      by_cases hi : i ∈ seen
      · rw [firstSeen, if_pos hi]; exact ih seen
      · rw [firstSeen, if_neg hi]
        refine List.nodup_cons.2 ⟨?_, ih (i :: seen)⟩
        intro hmem
        exact ((mem_firstSeen rest (i :: seen)).1 hmem).2 (List.mem_cons_self i seen)

theorem firstSeen_congr : ∀ (xs : List String) {seen1 seen2 : List String},
    (∀ x, x ∈ seen1 ↔ x ∈ seen2) → firstSeen seen1 xs = firstSeen seen2 xs
  | [], _, _, _ => rfl
  | i :: rest, seen1, seen2, h => by
      by_cases hi : i ∈ seen1
      · rw [firstSeen, if_pos hi, firstSeen, if_pos ((h i).1 hi)]
        exact firstSeen_congr rest h
      · rw [firstSeen, if_neg hi, firstSeen, if_neg fun hx => hi ((h i).2 hx)]
        exact congrArg (i :: ·) (firstSeen_congr rest (fun x => by simp [List.mem_cons, h x]))

theorem ids_foldl_upsertRec : ∀ (snaps : List Message) (l : List Message),
    ids (snaps.foldl upsertRec l) = ids l ++ firstSeen (ids l) (snaps.map Message.id)
  | [], l => by simp [firstSeen]
  | s :: rest, l => by
      rw [List.foldl_cons, ids_foldl_upsertRec rest (upsertRec l s), List.map_cons]
      by_cases hs : s.id ∈ ids l
      · rw [ids_upsertRec_of_mem hs, firstSeen, if_pos hs]
      · rw [upsertRec_of_not_mem hs]
        rw [firstSeen, if_neg hs]
        have hids : ids (l ++ [s]) = ids l ++ [s.id] := by simp [ids]
        rw [hids, List.append_assoc, List.singleton_append]
        congr 1
        congr 1
        exact firstSeen_congr _ (fun x => by
          simp only [List.mem_append, List.mem_cons, List.mem_singleton,
            List.not_mem_nil, or_false]
          exact or_comm)

/-- C1: applying any sequence of snapshots (repeated or out-of-order ids
included) through the reconciler's upsert, starting from the empty list,
yields a list whose ids are exactly the distinct incoming ids in first-seen
order (hence exactly one entry per distinct id); a snapshot whose id is
already present replaces the entry in place, leaving all positions (the full
id sequence) unchanged, and a snapshot with a new id is appended at the end. -/
theorem reconciler_first_seen_order (snaps : List Message) :
    ids (applyAll [] snaps) = firstSeen [] (snaps.map Message.id)
    ∧ (ids (applyAll [] snaps)).Nodup
    ∧ (∀ x, x ∈ ids (applyAll [] snaps) ↔ x ∈ snaps.map Message.id)
    ∧ (∀ (l : List Message) (m : Message), m.id ∈ ids l → ids (upsert l m) = ids l)
    ∧ (∀ (l : List Message) (m : Message), m.id ∉ ids l → upsert l m = l ++ [m]) := by
  have happ : ids (applyAll [] snaps) = firstSeen [] (snaps.map Message.id) := by
    rw [applyAll_eq_foldl_upsertRec, ids_foldl_upsertRec]
    simp [ids]
  refine ⟨happ, ?_, ?_, ?_, ?_⟩
  · rw [happ]; exact firstSeen_nodup _ _
  · intro x; rw [happ, mem_firstSeen]; simp
  · intro l m hm; rw [upsert_eq_upsertRec]; exact ids_upsertRec_of_mem hm
  · intro l m hm; rw [upsert_eq_upsertRec]; exact upsertRec_of_not_mem hm

/-- Witness for `reconciler_first_seen_order` at concrete inputs. -/
theorem reconciler_first_seen_order_witness :
    ids (applyAll [] [⟨"a", "x", Role.user⟩, ⟨"b", "y", Role.assistant⟩, ⟨"a", "z", Role.user⟩])
      = firstSeen [] ["a", "b", "a"]
    ∧ ids (upsert [⟨"a", "x", Role.user⟩] ⟨"a", "z", Role.user⟩) = ids [⟨"a", "x", Role.user⟩]
    ∧ upsert [⟨"a", "x", Role.user⟩] ⟨"b", "y", Role.user⟩
        = [⟨"a", "x", Role.user⟩] ++ [⟨"b", "y", Role.user⟩] :=
  ⟨(reconciler_first_seen_order
      [⟨"a", "x", Role.user⟩, ⟨"b", "y", Role.assistant⟩, ⟨"a", "z", Role.user⟩]).1,
   (reconciler_first_seen_order []).2.2.2.1 _ _ (by decide),
   (reconciler_first_seen_order []).2.2.2.2 _ _ (by decide)⟩

/-- C2 counterexample: the upsert overwrites the stored entry unconditionally,
so a stale out-of-order snapshot regresses `content` from `"long"` to the
shorter `"s"`.  The incoming snapshot is not in a `failed` state — messages in
this code carry no state field at all, so the claim's `failed` exception
cannot apply. -/
theorem reconciler_content_regression :
    applyAll [] [⟨"a", "long", Role.assistant⟩, ⟨"a", "s", Role.assistant⟩]
      = [⟨"a", "s", Role.assistant⟩]
    ∧ ("s" : String).length < ("long" : String).length := by
  exact ⟨by decide, by decide⟩

/-- C2 (amended): replaying snapshots through the reconciler never produces
duplicate entries (the ids of the reconciled list are distinct for every input
sequence), and replaying the same snapshot twice is idempotent; but `content`
is replaced unconditionally, so no non-regression guarantee holds (and no
`failed`-state exception exists, messages having no state field). -/
theorem reconciler_no_dup_idempotent :
    (∀ snaps : List Message, (ids (applyAll [] snaps)).Nodup)
    ∧ (∀ (l : List Message) (m : Message), upsert (upsert l m) m = upsert l m) := by
  constructor
  · intro snaps
    rw [applyAll_eq_foldl_upsertRec, ids_foldl_upsertRec]
    simpa [ids] using firstSeen_nodup (snaps.map Message.id) []
  · intro l m
    rw [upsert_eq_upsertRec l m, upsert_eq_upsertRec]
    exact upsertRec_idempotent l m

theorem upsertRec_getElem_ne : ∀ (l : List Message) (m : Message) (i : Nat) (e : Message),
    l[i]? = some e → e.id ≠ m.id → (upsertRec l m)[i]? = some e
  | [], _, i, _, h, _ => by simp at h
  | x :: rest, m, i, e, h, hne => by
      by_cases hx : x.id = m.id
      · rw [upsertRec, if_pos hx]
        cases i with
        | zero =>
            rw [List.getElem?_cons_zero, Option.some_inj] at h
            exact absurd (h ▸ hx) hne
        | succ n =>
            rw [List.getElem?_cons_succ] at h ⊢
            exact h
      · rw [upsertRec, if_neg hx]
        cases i with
        | zero =>
            rw [List.getElem?_cons_zero] at h ⊢
            exact h
        | succ n =>
            rw [List.getElem?_cons_succ] at h ⊢
            exact upsertRec_getElem_ne rest m n e h hne

theorem upsertRec_length_of_mem : ∀ {l : List Message} {m : Message},
    m.id ∈ ids l → (upsertRec l m).length = l.length := by
  intro l m hm
  have h := congrArg List.length (ids_upsertRec_of_mem hm)
  simpa [ids] using h

/-- C10: applying one snapshot with id `X` leaves every entry whose id is not
`X` unchanged at its exact position (same id, role and content), and the list
grows by exactly one entry when no entry with id `X` existed, otherwise keeps
its length. -/
theorem upsert_frame (l : List Message) (m : Message) :
    (∀ (i : Nat) (e : Message), l[i]? = some e → e.id ≠ m.id → (upsert l m)[i]? = some e)
    ∧ (m.id ∈ ids l → (upsert l m).length = l.length)
    ∧ (m.id ∉ ids l → (upsert l m).length = l.length + 1) := by
  rw [upsert_eq_upsertRec]
  refine ⟨fun i e h hne => upsertRec_getElem_ne l m i e h hne, ?_, ?_⟩
  · exact upsertRec_length_of_mem
  · intro hm
    rw [upsertRec_of_not_mem hm]
    simp

/-- Witness for `upsert_frame` at concrete inputs. -/
theorem upsert_frame_witness :
    (upsert [⟨"a", "x", Role.user⟩, ⟨"b", "y", Role.assistant⟩] ⟨"b", "z", Role.assistant⟩)[0]?
      = some ⟨"a", "x", Role.user⟩
    ∧ (upsert [⟨"a", "x", Role.user⟩, ⟨"b", "y", Role.assistant⟩]
        ⟨"b", "z", Role.assistant⟩).length
      = ([⟨"a", "x", Role.user⟩, ⟨"b", "y", Role.assistant⟩] : List Message).length
    ∧ (upsert [⟨"a", "x", Role.user⟩] ⟨"b", "y", Role.assistant⟩).length
      = ([⟨"a", "x", Role.user⟩] : List Message).length + 1 :=
  ⟨(upsert_frame [⟨"a", "x", Role.user⟩, ⟨"b", "y", Role.assistant⟩]
      ⟨"b", "z", Role.assistant⟩).1 0 ⟨"a", "x", Role.user⟩ (by decide) (by decide),
   (upsert_frame [⟨"a", "x", Role.user⟩, ⟨"b", "y", Role.assistant⟩]
      ⟨"b", "z", Role.assistant⟩).2.1 (by decide),
   (upsert_frame [⟨"a", "x", Role.user⟩] ⟨"b", "y", Role.assistant⟩).2.2 (by decide)⟩

/-! ## Theorems: the Delta Aggregator (`sendMessage` / `streamLoop`) -/

theorem streamLoop_events_eq : ∀ (asst : Message) (fs : List String),
    (streamLoop asst fs).1 = (partials asst fs).map Event.updateMessage
  | _, [] => rfl
  | asst, f :: rest => by
      simp only [streamLoop, partials, List.map_cons, List.cons.injEq, true_and]
      exact streamLoop_events_eq _ rest

theorem streamLoop_final_eq : ∀ (asst : Message) (fs : List String),
    (streamLoop asst fs).2 = { asst with content := fs.foldl (fun a b => a ++ b) asst.content }
  | _, [] => rfl
  | asst, f :: rest => by
      simp only [streamLoop, List.foldl_cons]
      exact streamLoop_final_eq _ rest

theorem partials_length : ∀ (asst : Message) (fs : List String),
    (partials asst fs).length = fs.length
  | _, [] => rfl
  | asst, f :: rest => by
      simp only [partials, List.length_cons]
      exact congrArg Nat.succ (partials_length _ rest)

theorem partials_id_role : ∀ (asst : Message) (fs : List String) (m : Message),
    m ∈ partials asst fs → m.id = asst.id ∧ m.role = asst.role
  | asst, [], m, h => by simp [partials] at h
  | asst, f :: rest, m, h => by
      simp only [partials, List.mem_cons] at h
      rcases h with rfl | h
      · exact ⟨rfl, rfl⟩
      · exact partials_id_role { asst with content := asst.content ++ f } rest m h

theorem partials_chain : ∀ (asst : Message) (fs : List String),
    List.Chain' (fun a b => StrPrefix a.content b.content) (asst :: partials asst fs)
  | _, [] => List.chain'_singleton _
  | asst, f :: rest => by
      simp only [partials]
      exact List.Chain'.cons ⟨f, rfl⟩ (partials_chain _ rest)

theorem getLast?_cons_ne {α : Type} {l : List α} {a : α} (h : l ≠ []) :
    (a :: l).getLast? = l.getLast? := by
  cases l with
  | nil => exact absurd rfl h
  | cons b t => exact List.getLast?_cons_cons

theorem partials_ne_nil {asst : Message} {fs : List String} (h : fs ≠ []) :
    partials asst fs ≠ [] := by
  intro hnil
  have hlen := partials_length asst fs
  rw [hnil] at hlen
  exact h (List.eq_nil_of_length_eq_zero hlen.symm)

theorem partials_getLast : ∀ (asst : Message) (fs : List String), fs ≠ [] →
    (partials asst fs).getLast?
      = some { asst with content := fs.foldl (fun a b => a ++ b) asst.content }
  | _, [], h => absurd rfl h
  | asst, f :: rest, _ => by
      by_cases hr : rest = []
      · subst hr; rfl
      · have ih := partials_getLast { asst with content := asst.content ++ f } rest hr
        simp only [partials]
        rw [getLast?_cons_ne (partials_ne_nil hr), ih]
        rfl

theorem mem_of_getLast?_eq_some {α : Type} : ∀ {l : List α} {m : α},
    l.getLast? = some m → m ∈ l
  | [], _, h => by simp at h
  | [a], m, h => by
      simp only [List.getLast?_singleton, Option.some_inj] at h
      simp [h]
  | a :: b :: t, m, h => by
      rw [List.getLast?_cons_cons] at h
      exact List.mem_cons_of_mem _ (mem_of_getLast?_eq_some h)

theorem snapshotsFor_append (aid : String) (xs ys : List Event) :
    snapshotsFor aid (xs ++ ys) = snapshotsFor aid xs ++ snapshotsFor aid ys :=
  List.filterMap_append xs ys _

theorem snapshotsFor_updates (aid : String) : ∀ (l : List Message),
    (∀ m ∈ l, m.id = aid) → snapshotsFor aid (l.map Event.updateMessage) = l
  | [], _ => rfl
  | m :: rest, h => by
      have hm : m.id = aid := h m (List.mem_cons_self _ _)
      have ih := snapshotsFor_updates aid rest (fun x hx => h x (List.mem_cons_of_mem _ hx))
      simp only [snapshotsFor, List.map_cons, List.filterMap_cons, Event.message] at ih ⊢
      rw [if_pos hm, ih]

theorem sendMessage_events_eq (msgs : List Message) (aid : String) (gen : GenResult) :
    (sendMessage msgs aid gen).1
      = (match msgs.getLast? with
          | some m => if m.role = Role.user then [Event.newMessage m] else []
          | none => [])
        ++ [Event.newMessage ⟨aid, "", Role.assistant⟩]
        ++ (partials ⟨aid, "", Role.assistant⟩ gen.fragments).map Event.updateMessage := by
  cases hce : gen.errorsAfter <;>
    simp [sendMessage, hce, streamLoop_events_eq]

theorem sendMessage_result_ok (msgs : List Message) (aid : String) (fs : List String) :
    (sendMessage msgs aid ⟨fs, false⟩).2 = Except.ok ⟨aid, concatFrags fs, Role.assistant⟩ := by
  have h : (sendMessage msgs aid ⟨fs, false⟩).2
      = Except.ok (streamLoop ⟨aid, "", Role.assistant⟩ fs).2 := rfl
  rw [h, streamLoop_final_eq]
  rfl

theorem sendMessage_result_error (msgs : List Message) (aid : String) (fs : List String) :
    (sendMessage msgs aid ⟨fs, true⟩).2 = Except.error () := rfl

theorem snapshotsFor_user_events (msgs : List Message) (aid : String)
    (h : ∀ m ∈ msgs, m.id ≠ aid) :
    snapshotsFor aid (match msgs.getLast? with
        | some m => if m.role = Role.user then [Event.newMessage m] else []
        | none => []) = [] := by
  cases hl : msgs.getLast? with
  | none => rfl
  | some m =>
      have hm : m ∈ msgs := mem_of_getLast?_eq_some hl
      by_cases hr : m.role = Role.user
      · simp [snapshotsFor, hr, Event.message, h m hm]
      · simp [snapshotsFor, hr]

theorem snapshotsFor_sendMessage (msgs : List Message) (aid : String) (gen : GenResult)
    (h : ∀ m ∈ msgs, m.id ≠ aid) :
    snapshotsFor aid (sendMessage msgs aid gen).1
      = ⟨aid, "", Role.assistant⟩ :: partials ⟨aid, "", Role.assistant⟩ gen.fragments := by
  rw [sendMessage_events_eq, snapshotsFor_append, snapshotsFor_append,
    snapshotsFor_user_events msgs aid h,
    snapshotsFor_updates aid _ (fun m hm => (partials_id_role _ _ m hm).1)]
  simp [snapshotsFor, Event.message]

/-- C7: the sequence of snapshots emitted for the assistant message during one
`sendMessage` run (the `created` snapshot with empty content followed by one
snapshot per fragment) has monotonically extending content: each successive
snapshot's `content` is a prefix-extension of the previous one, for both the
normally terminating and the erroring fragment source.  The hypothesis states
that the fresh assistant uuid collides with no input-message id. -/
theorem streaming_content_prefix_chain (msgs : List Message) (aid : String) (gen : GenResult)
    (h : ∀ m ∈ msgs, m.id ≠ aid) :
    List.Chain' (fun a b => StrPrefix a.content b.content)
      (snapshotsFor aid (sendMessage msgs aid gen).1) := by
  rw [snapshotsFor_sendMessage msgs aid gen h]
  exact partials_chain _ _

/-- Witness for `streaming_content_prefix_chain` at the spec's own scenario:
fragments `"hel"`, `"lo there"`. -/
theorem streaming_content_prefix_chain_witness :
    List.Chain' (fun a b => StrPrefix a.content b.content)
      (snapshotsFor "a1"
        (sendMessage [⟨"u1", "hi", Role.user⟩] "a1" ⟨["hel", "lo there"], false⟩).1) :=
  streaming_content_prefix_chain [⟨"u1", "hi", Role.user⟩] "a1" ⟨["hel", "lo there"], false⟩
    (by decide)

/-- C3 counterexample: the spec's own scenario — the generation source errors
after emitting the fragment `"partial"`.  `sendMessage` has no try/catch
around the delta loop: the emitted trace is exactly the `newMessage` events
and the one streaming update, with no terminal snapshot of any kind (messages
carry no `state` field, so no `failed`-state snapshot exists), and the error
propagates out of the mutation. -/
theorem error_emits_no_failed_snapshot :
    (sendMessage [⟨"u1", "hi", Role.user⟩] "a1" ⟨["partial"], true⟩).1
      = [Event.newMessage ⟨"u1", "hi", Role.user⟩,
         Event.newMessage ⟨"a1", "", Role.assistant⟩,
         Event.updateMessage ⟨"a1", "partial", Role.assistant⟩]
    ∧ (sendMessage [⟨"u1", "hi", Role.user⟩] "a1" ⟨["partial"], true⟩).2
      = Except.error () :=
  ⟨by decide, rfl⟩

/-- C3 (amended): when the generation source errors after consuming some
fragments, the error propagates out of `sendMessage` (a tRPC error to the
caller) and nothing further is emitted: the emitted trace is exactly the trace
of the non-erroring run over the same fragments, so the updates already
published — the last of which carries the accumulated partial content — remain
with subscribers; the partial content is not retracted, but no `failed`-state
(or otherwise terminal) snapshot exists. -/
theorem error_propagates_preserving_partials (msgs : List Message) (aid : String)
    (fs : List String) (h : fs ≠ []) :
    (sendMessage msgs aid ⟨fs, true⟩).2 = Except.error ()
    ∧ (sendMessage msgs aid ⟨fs, true⟩).1 = (sendMessage msgs aid ⟨fs, false⟩).1
    ∧ (snapshotsFor aid (sendMessage msgs aid ⟨fs, true⟩).1).getLast?
        = some ⟨aid, concatFrags fs, Role.assistant⟩ := by
  refine ⟨rfl, rfl, ?_⟩
  rw [sendMessage_events_eq, snapshotsFor_append, snapshotsFor_append,
    snapshotsFor_updates aid _ (fun m hm => (partials_id_role _ _ m hm).1),
    List.getLast?_append, List.getLast?_append, partials_getLast _ _ h]
  rfl

/-- Witness for `error_propagates_preserving_partials` at the spec's scenario. -/
theorem error_propagates_preserving_partials_witness :
    (sendMessage [⟨"u1", "hi", Role.user⟩] "a1" ⟨["partial"], true⟩).2 = Except.error ()
    ∧ (sendMessage [⟨"u1", "hi", Role.user⟩] "a1" ⟨["partial"], true⟩).1
        = (sendMessage [⟨"u1", "hi", Role.user⟩] "a1" ⟨["partial"], false⟩).1
    ∧ (snapshotsFor "a1" (sendMessage [⟨"u1", "hi", Role.user⟩] "a1" ⟨["partial"], true⟩).1).getLast?
        = some ⟨"a1", concatFrags ["partial"], Role.assistant⟩ :=
  error_propagates_preserving_partials [⟨"u1", "hi", Role.user⟩] "a1" ["partial"] (by decide)

/-- C4 counterexample: a `sendMessage` call whose new user message has empty
content is not rejected: the zod `messageSchema` constrains only the shape
(`content: z.string()` admits `""`), so the empty-content turn is emitted to
subscribers and the generation call runs to completion — full processing, no
synchronous rejection at the request/response boundary. -/
theorem empty_content_fully_processed :
    (sendMessage [⟨"u1", "", Role.user⟩] "a1" ⟨["ok"], false⟩).1
      = [Event.newMessage ⟨"u1", "", Role.user⟩,
         Event.newMessage ⟨"a1", "", Role.assistant⟩,
         Event.updateMessage ⟨"a1", "ok", Role.assistant⟩]
    ∧ (sendMessage [⟨"u1", "", Role.user⟩] "a1" ⟨["ok"], false⟩).2
      = Except.ok ⟨"a1", "ok", Role.assistant⟩ :=
  ⟨by decide, rfl⟩

/-- C4 (amended): the only guard against an empty turn lives in the client
form handler — `if (!input) return;` makes `handleSubmit` a no-op on empty
input, sending no mutation — while the server `sendMessage` performs no
content validation at the request/response boundary: a call whose last message
is an empty-content user turn is processed exactly like any other (the user
message and the assistant lifecycle are published, the generation runs, the
final assistant message is returned). -/
theorem empty_input_guarded_only_client_side :
    (∀ (msgs : List Message) (fid : String), handleSubmit "" msgs fid = (msgs, none))
    ∧ (∀ (aid : String) (fs : List String),
        (sendMessage [⟨"u1", "", Role.user⟩] aid ⟨fs, false⟩).1
          = [Event.newMessage ⟨"u1", "", Role.user⟩, Event.newMessage ⟨aid, "", Role.assistant⟩]
            ++ (partials ⟨aid, "", Role.assistant⟩ fs).map Event.updateMessage
        ∧ (sendMessage [⟨"u1", "", Role.user⟩] aid ⟨fs, false⟩).2
          = Except.ok ⟨aid, concatFrags fs, Role.assistant⟩) := by
  refine ⟨fun msgs fid => rfl, fun aid fs => ⟨?_, sendMessage_result_ok _ _ _⟩⟩
  rw [sendMessage_events_eq]
  rfl

/-- C6 counterexample: nothing rejects or queues a second `sendMessage` while
a prior assistant message is still streaming.  The mutation consults no
per-conversation state, and its delta loop suspends awaiting each fragment, so
two in-flight calls interleave their emissions on the shared bus: under the
exhibited schedule the two assistants' streaming updates alternate in the one
event stream — `a1` receives an update after `a2` has started and before `a2`
finishes — and both calls complete successfully, neither rejected nor queued. -/
theorem concurrent_sends_interleave :
    mergeSched [true, true, true, false, false, false, true, false]
        (sendMessage [⟨"u1", "hi", Role.user⟩] "a1" ⟨["x1", "x2"], false⟩).1
        (sendMessage [⟨"u2", "yo", Role.user⟩] "a2" ⟨["y1", "y2"], false⟩).1
      = [Event.newMessage ⟨"u1", "hi", Role.user⟩,
         Event.newMessage ⟨"a1", "", Role.assistant⟩,
         Event.updateMessage ⟨"a1", "x1", Role.assistant⟩,
         Event.newMessage ⟨"u2", "yo", Role.user⟩,
         Event.newMessage ⟨"a2", "", Role.assistant⟩,
         Event.updateMessage ⟨"a2", "y1", Role.assistant⟩,
         Event.updateMessage ⟨"a1", "x1x2", Role.assistant⟩,
         Event.updateMessage ⟨"a2", "y1y2", Role.assistant⟩]
    ∧ (sendMessage [⟨"u1", "hi", Role.user⟩] "a1" ⟨["x1", "x2"], false⟩).2
        = Except.ok ⟨"a1", "x1x2", Role.assistant⟩
    ∧ (sendMessage [⟨"u2", "yo", Role.user⟩] "a2" ⟨["y1", "y2"], false⟩).2
        = Except.ok ⟨"a2", "y1y2", Role.assistant⟩ :=
  ⟨by decide, rfl, rfl⟩

/-- C6 (amended): the server keeps no streaming state and cannot reject or
queue: every `sendMessage` call over a non-erroring fragment source is
accepted and runs to completion, whatever else is in flight — its outcome is
a function of the call's own arguments alone.  (Concurrent calls therefore
interleave into the shared stream, as `concurrent_sends_interleave` exhibits;
the only mitigation in the repository is client-side: the `Chat` form input is
disabled while that client's own mutation is pending.) -/
theorem sendMessage_never_rejects (msgs : List Message) (aid : String) (fs : List String) :
    (sendMessage msgs aid ⟨fs, false⟩).2 = Except.ok ⟨aid, concatFrags fs, Role.assistant⟩ :=
  sendMessage_result_ok msgs aid fs

/-- C8 counterexample: with fragments `["a", ""]` the snapshot carrying the
final content `"a"` is emitted twice (the empty delta re-emits the same
snapshot), and no emitted event is marked terminal — messages have no `state`
field, so subscribers cannot distinguish a terminal snapshot at all; the final
message reaches only the mutation caller as the return value. -/
theorem final_snapshot_emitted_twice :
    (sendMessage [⟨"u1", "hi", Role.user⟩] "a1" ⟨["a", ""], false⟩).1
      = [Event.newMessage ⟨"u1", "hi", Role.user⟩,
         Event.newMessage ⟨"a1", "", Role.assistant⟩,
         Event.updateMessage ⟨"a1", "a", Role.assistant⟩,
         Event.updateMessage ⟨"a1", "a", Role.assistant⟩]
    ∧ (sendMessage [⟨"u1", "hi", Role.user⟩] "a1" ⟨["a", ""], false⟩).2
      = Except.ok ⟨"a1", "a", Role.assistant⟩ :=
  ⟨by decide, rfl⟩

theorem filter_isUpdate_updates : ∀ (l : List Message),
    (l.map Event.updateMessage).filter Event.isUpdate = l.map Event.updateMessage
  | [] => rfl
  | m :: rest => by
      simp only [List.map_cons, List.filter_cons, Event.isUpdate, if_pos]
      rw [filter_isUpdate_updates rest]

/-- C8 (amended): for every fragment sequence consumed without error, the
aggregation emits exactly one `updateMessage` snapshot per incoming fragment;
the final content of the assistant message — returned exactly once, to the
mutation caller — equals the concatenation of all fragments in arrival order,
and when at least one fragment arrived the last emitted snapshot for the
assistant id carries that same full content.  No emitted event is marked
terminal (messages carry no `state` field). -/
theorem one_snapshot_per_fragment (msgs : List Message) (aid : String) (fs : List String) :
    (((sendMessage msgs aid ⟨fs, false⟩).1.filter Event.isUpdate).length = fs.length)
    ∧ (sendMessage msgs aid ⟨fs, false⟩).2 = Except.ok ⟨aid, concatFrags fs, Role.assistant⟩
    ∧ (fs ≠ [] → (snapshotsFor aid (sendMessage msgs aid ⟨fs, false⟩).1).getLast?
        = some ⟨aid, concatFrags fs, Role.assistant⟩) := by
  refine ⟨?_, sendMessage_result_ok _ _ _, ?_⟩
  · rw [sendMessage_events_eq, List.filter_append, List.filter_append,
      filter_isUpdate_updates, List.length_append, List.length_append]
    have h1 : (List.filter Event.isUpdate (match msgs.getLast? with
        | some m => if m.role = Role.user then [Event.newMessage m] else []
        | none => [])).length = 0 := by
      cases msgs.getLast? with
      | none => rfl
      | some m =>
          by_cases hr : m.role = Role.user
          · simp [hr, Event.isUpdate]
          · simp [hr]
    rw [h1, List.length_map, partials_length]
    simp [Event.isUpdate]
  · intro h
    rw [sendMessage_events_eq, snapshotsFor_append, snapshotsFor_append,
      snapshotsFor_updates aid _ (fun m hm => (partials_id_role _ _ m hm).1),
      List.getLast?_append, List.getLast?_append, partials_getLast _ _ h]
    rfl

/-- Witness for `one_snapshot_per_fragment` at the spec's scenario
(fragments `"hel"`, `"lo there"`, final content `"hello there"`). -/
theorem one_snapshot_per_fragment_witness :
    (((sendMessage [⟨"u1", "hi", Role.user⟩] "a1"
        ⟨["hel", "lo there"], false⟩).1.filter Event.isUpdate).length
      = (["hel", "lo there"] : List String).length)
    ∧ (sendMessage [⟨"u1", "hi", Role.user⟩] "a1" ⟨["hel", "lo there"], false⟩).2
        = Except.ok ⟨"a1", concatFrags ["hel", "lo there"], Role.assistant⟩
    ∧ (snapshotsFor "a1"
        (sendMessage [⟨"u1", "hi", Role.user⟩] "a1" ⟨["hel", "lo there"], false⟩).1).getLast?
        = some ⟨"a1", concatFrags ["hel", "lo there"], Role.assistant⟩ :=
  ⟨(one_snapshot_per_fragment [⟨"u1", "hi", Role.user⟩] "a1" ["hel", "lo there"]).1,
   (one_snapshot_per_fragment [⟨"u1", "hi", Role.user⟩] "a1" ["hel", "lo there"]).2.1,
   (one_snapshot_per_fragment [⟨"u1", "hi", Role.user⟩] "a1" ["hel", "lo there"]).2.2
     (by decide)⟩

/-! ## Theorems: the Broadcast Hub (`ee` / `onMessage`) -/

theorem removeFirst_of_not_mem : ∀ {xs : List Nat} {x : Nat}, x ∉ xs → removeFirst x xs = xs
  | [], _, _ => rfl
  | y :: ys, x, h => by
      have hy : ¬ y = x := fun he => h (by simp [he])
      simp only [removeFirst, hy, if_false]
      rw [removeFirst_of_not_mem (fun hm => h (List.mem_cons_of_mem _ hm))]

theorem removeFirst_subset : ∀ {xs : List Nat} {x y : Nat}, y ∈ removeFirst x xs → y ∈ xs
  | [], _, _, h => by simp [removeFirst] at h
  | z :: ys, x, y, h => by
      by_cases hz : z = x
      · rw [removeFirst, if_pos hz] at h
        exact List.mem_cons_of_mem _ h
      · rw [removeFirst, if_neg hz] at h
        rcases List.mem_cons.1 h with rfl | h
        · exact List.mem_cons_self _ _
        · exact List.mem_cons_of_mem _ (removeFirst_subset h)

theorem not_mem_removeFirst_self : ∀ {xs : List Nat}, xs.Nodup → ∀ x, x ∉ removeFirst x xs
  | [], _, x => by simp [removeFirst]
  | y :: ys, h, x => by
      have hnd := List.nodup_cons.1 h
      by_cases hy : y = x
      · rw [removeFirst, if_pos hy]
        subst hy
        exact hnd.1
      · rw [removeFirst, if_neg hy]
        intro hmem
        rcases List.mem_cons.1 hmem with rfl | hmem
        · exact hy rfl
        · exact not_mem_removeFirst_self hnd.2 x hmem

theorem mem_removeFirst_of_ne : ∀ {xs : List Nat} {x y : Nat}, y ≠ x →
    (y ∈ removeFirst x xs ↔ y ∈ xs)
  | [], _, y, _ => by simp [removeFirst]
  | z :: ys, x, y, hne => by
      by_cases hz : z = x
      · rw [removeFirst, if_pos hz]
        subst hz
        constructor
        · exact fun h => List.mem_cons_of_mem _ h
        · intro h
          rcases List.mem_cons.1 h with rfl | h
          · exact absurd rfl hne
          · exact h
      · rw [removeFirst, if_neg hz]
        rw [List.mem_cons, List.mem_cons, mem_removeFirst_of_ne hne]

theorem removeFirst_nodup : ∀ {xs : List Nat}, xs.Nodup → ∀ x, (removeFirst x xs).Nodup
  | [], _, _ => by simp [removeFirst]
  | y :: ys, h, x => by
      have hnd := List.nodup_cons.1 h
      by_cases hy : y = x
      · rw [removeFirst, if_pos hy]
        exact hnd.2
      · rw [removeFirst, if_neg hy]
        exact List.nodup_cons.2
          ⟨fun hm => hnd.1 (removeFirst_subset hm), removeFirst_nodup hnd.2 x⟩

theorem Hub.WF_empty : Hub.WF Hub.empty :=
  ⟨List.nodup_nil, fun l hl => absurd hl (List.not_mem_nil l)⟩

theorem Hub.WF_subscribe {h : Hub} (hwf : h.WF) : (Hub.subscribe h).1.WF := by
  refine ⟨?_, ?_⟩
  all_goals simp only [Hub.subscribe]
  · rw [List.nodup_append]
    refine ⟨hwf.1, List.nodup_singleton _, ?_⟩
    intro a ha hb
    rw [List.mem_singleton] at hb
    subst hb
    exact Nat.lt_irrefl _ (hwf.2 _ ha)
  · intro l hl
    rcases List.mem_append.1 hl with hl | hl
    · exact Nat.lt_succ_of_lt (hwf.2 l hl)
    · rw [List.mem_singleton] at hl
      subst hl
      exact Nat.lt_succ_self _

theorem Hub.WF_unsubscribe {h : Hub} (hwf : h.WF) (l : Nat) : (h.unsubscribe l).WF :=
  ⟨removeFirst_nodup hwf.1 l, fun m hm => hwf.2 m (removeFirst_subset hm)⟩

/-- C9: on a hub reachable from `Hub.empty` (well-formed: fresh, distinct
listener identities, as `Hub.WF_empty`/`Hub.WF_subscribe`/`Hub.WF_unsubscribe`
establish), tearing a subscription down twice equals tearing it down once
(`ee.off` on an absent handler is a no-op); the unsubscribed listener is gone
and receives no further events; every other listener's registration is
untouched; and the events of a still-running generation — which does not
depend on the listener set at all — keep flowing to every remaining listener
through to the final full-content snapshot. -/
theorem unsubscribe_idempotent_and_isolated (h : Hub) (l : Nat) (hwf : Hub.WF h) :
    ((h.unsubscribe l).unsubscribe l = h.unsubscribe l)
    ∧ l ∉ (h.unsubscribe l).listeners
    ∧ (∀ events : List Event, (h.unsubscribe l).received events l = [])
    ∧ (∀ m, m ≠ l → (m ∈ (h.unsubscribe l).listeners ↔ m ∈ h.listeners))
    ∧ (∀ (msgs : List Message) (aid : String) (gen : GenResult) (m : Nat),
        m ≠ l → m ∈ h.listeners →
        (h.unsubscribe l).received (sendMessage msgs aid gen).1 m
          = (sendMessage msgs aid gen).1) := by
  have hnm : l ∉ removeFirst l h.listeners := not_mem_removeFirst_self hwf.1 l
  have hnm' : l ∉ (h.unsubscribe l).listeners := hnm
  refine ⟨?_, hnm', ?_, ?_, ?_⟩
  · simp [Hub.unsubscribe, removeFirst_of_not_mem hnm]
  · intro events
    simp [Hub.received, hnm']
  · intro m hm
    exact mem_removeFirst_of_ne hm
  · intro msgs aid gen m hm hmem
    have hmem' : m ∈ (h.unsubscribe l).listeners := (mem_removeFirst_of_ne hm).2 hmem
    simp [Hub.received, hmem']

/-- Witness for `unsubscribe_idempotent_and_isolated`: listener `1`
unsubscribes from the two-listener hub mid-stream; listener `0` still receives
the whole generation trace. -/
theorem unsubscribe_idempotent_and_isolated_witness :
    ((Hub.unsubscribe (Hub.unsubscribe ⟨[0, 1], 2⟩ 1) 1) = Hub.unsubscribe ⟨[0, 1], 2⟩ 1)
    ∧ (1 : Nat) ∉ (Hub.unsubscribe ⟨[0, 1], 2⟩ 1).listeners
    ∧ (Hub.unsubscribe ⟨[0, 1], 2⟩ 1).received
        (sendMessage [⟨"u1", "hi", Role.user⟩] "a1" ⟨["hel", "lo there"], false⟩).1 0
      = (sendMessage [⟨"u1", "hi", Role.user⟩] "a1" ⟨["hel", "lo there"], false⟩).1 :=
  ⟨(unsubscribe_idempotent_and_isolated ⟨[0, 1], 2⟩ 1 (by exact ⟨by decide, by decide⟩)).1,
   (unsubscribe_idempotent_and_isolated ⟨[0, 1], 2⟩ 1 (by exact ⟨by decide, by decide⟩)).2.1,
   (unsubscribe_idempotent_and_isolated ⟨[0, 1], 2⟩ 1 (by exact ⟨by decide, by decide⟩)).2.2.2.2
     [⟨"u1", "hi", Role.user⟩] "a1" ⟨["hel", "lo there"], false⟩ 0 (by decide) (by decide)⟩

/-- C5 counterexample: after two `onMessage` subscriptions, a published event
is handed to both listeners — `ee.emit` consults no conversation key (and
cannot: the subscription has no conversation parameter and `Message` has no
`conversationId` field, only `id`, `content`, `role`).  With the two
subscribers watching different conversations (`intendedConversation`, an
attribution the code cannot record), whichever conversation the event belongs
to, some subscriber of the other conversation receives it: here listener `1`,
watching `"c2"`, receives the event of listener `0`'s conversation `"c1"`. -/
theorem event_delivered_across_conversations :
    Hub.recipients (Hub.subscribe (Hub.subscribe Hub.empty).1).1
        (Event.newMessage ⟨"m1", "hi", Role.user⟩) = [0, 1]
    ∧ (1 : Nat) ∈ Hub.recipients (Hub.subscribe (Hub.subscribe Hub.empty).1).1
        (Event.newMessage ⟨"m1", "hi", Role.user⟩)
    ∧ intendedConversation 0 = "c1"
    ∧ intendedConversation 1 = "c2"
    ∧ intendedConversation 1 ≠ intendedConversation 0 := by
  refine ⟨by decide, by decide, by decide, by decide, by decide⟩

/-- C5 (amended): fan-out is global, not conversation-scoped: every published
event is handed to exactly the listeners currently registered on the single
shared emitter — a registered listener receives every published event and the
recipient set never depends on the event — because `onMessage` subscribes with
no conversation parameter and snapshots carry no `conversationId`. -/
theorem publish_reaches_all_listeners (h : Hub) (events : List Event) (l : Nat)
    (hl : l ∈ h.listeners) :
    Hub.received h events l = events
    ∧ (∀ e : Event, Hub.recipients h e = h.listeners)
    ∧ (∀ e e' : Event, Hub.recipients h e = Hub.recipients h e') :=
  ⟨if_pos hl, fun _ => rfl, fun _ _ => rfl⟩

/-- Witness for `publish_reaches_all_listeners` on the two-listener hub. -/
theorem publish_reaches_all_listeners_witness :
    Hub.received ⟨[0, 1], 2⟩
        [Event.newMessage ⟨"m1", "hi", Role.user⟩] 1
      = [Event.newMessage ⟨"m1", "hi", Role.user⟩]
    ∧ Hub.recipients ⟨[0, 1], 2⟩ (Event.newMessage ⟨"m1", "hi", Role.user⟩) = [0, 1] :=
  ⟨(publish_reaches_all_listeners ⟨[0, 1], 2⟩
      [Event.newMessage ⟨"m1", "hi", Role.user⟩] 1 (by decide)).1,
   (publish_reaches_all_listeners ⟨[0, 1], 2⟩
      [Event.newMessage ⟨"m1", "hi", Role.user⟩] 1 (by decide)).2.1
     (Event.newMessage ⟨"m1", "hi", Role.user⟩)⟩

end CodeWeaver
